import Mathlib

/-!
Verification of the patent-search ingestion-and-search pipeline
(`backend/parser.py`, `backend/sqlite_search_engine.py`).

The Python code is shallowly embedded: strings are Lean `String`s
(ASCII-faithful models of the Python string operations used), SQLite
state is an explicit record of the `patents` table and the derived
`patents_fts` index rows (kept in sync by the insert trigger; note the
code declares no delete trigger), and Python floats are idealized as
exact rationals (all weights in the scorer are small dyadic or decimal
constants).
-/

set_option maxRecDepth 10000

namespace PatentSearch

/-! ## String primitives modelling the Python operations used -/

/-- Lower-casing, modelling `str.lower` on ASCII text. -/
def pyLower (s : String) : String := String.mk (s.data.map Char.toLower)

/-- `str.split()` with no argument: split on whitespace runs, dropping
empty fragments. -/
def pySplitWs (s : String) : List String :=
  ((s.data.splitOnP Char.isWhitespace).map String.mk).filter (fun t => t ≠ "")

/-- Helper for `str.count`: non-overlapping occurrences of the non-empty
pattern `pat`, scanning left to right and skipping past each match.
`fuel` (instantiated with the text length) only discharges termination:
every step consumes at least one character. -/
def pyCountAux (pat : List Char) : Nat → List Char → Nat
  | _, [] => 0
  | 0, _ :: _ => 0
  | fuel + 1, c :: cs =>
    if pat.isPrefixOf (c :: cs) then
      1 + pyCountAux pat fuel (cs.drop (pat.length - 1))
    else pyCountAux pat fuel cs

/-- `str.count`, Python semantics (an empty pattern counts `len + 1`). -/
def pyCount (s pat : String) : Nat :=
  if pat.data = [] then s.data.length + 1
  else pyCountAux pat.data s.data.length s.data

/-- Substring containment, modelling Python's `in` on strings. -/
def containsSub (pat : List Char) : List Char → Bool
  | [] => pat.isEmpty
  | c :: cs => pat.isPrefixOf (c :: cs) || containsSub pat cs

/-- `in` at the `String` level. -/
def strContains (hay pat : String) : Bool := containsSub pat.data hay.data

/-! ## The canonical patent record and the SQLite state -/

/-- A stored patent row (`patents` table; the dict shape produced by the
parser and consumed by `index_patents`). -/
structure Patent where
  id : String
  title : String
  abstract : String
  description : String
  claims : String
  assignee : String
  inventors : List String
  application_date : String
  publication_date : String
  ipc_class : String
  ipc_classes : List String
  category : String
deriving DecidableEq, Repr

/-- `json.dumps` of a list of strings (escaping not modelled; names in this
development contain no quotes or backslashes). -/
def jsonDumps (l : List String) : String :=
  "[" ++ String.intercalate ", " (l.map (fun s => "\"" ++ s ++ "\"")) ++ "]"

/-- One row of the `patents_fts` FTS5 index, as populated by the
`patents_fts_insert` trigger (the `inventors` column receives the JSON
serialization inserted into the base table). -/
structure FtsRow where
  id : String
  title : String
  abstract : String
  description : String
  claims : String
  assignee : String
  inventors : String
  ipc_class : String
  category : String
deriving DecidableEq, Repr

/-- The index-entry row the insert trigger derives from an inserted patent. -/
def ftsRowOf (p : Patent) : FtsRow :=
  { id := p.id, title := p.title, abstract := p.abstract,
    description := p.description, claims := p.claims, assignee := p.assignee,
    inventors := jsonDumps p.inventors, ipc_class := p.ipc_class,
    category := p.category }

/-- Database state: the stored record table plus the derived FTS index
entries.  `init_database` creates triggers that mirror INSERT and UPDATE
on `patents` into `patents_fts`; there is no DELETE trigger. -/
structure DBState where
  patents : List Patent
  patents_fts : List FtsRow
deriving DecidableEq, Repr

/-- `index_patents`: clears the `patents` table (`DELETE FROM patents`,
which fires no FTS trigger), then inserts the given records one by one;
an insert whose id collides with an already-inserted row raises
`IntegrityError` and is skipped by the `except: continue`. Each
successful insert appends the trigger-derived row to `patents_fts`. -/
def index_patents (records : List Patent) (s : DBState) : DBState :=
  records.foldl
    (fun st r =>
      if st.patents.any (fun p => p.id == r.id) then st
      else { patents := st.patents ++ [r],
             patents_fts := st.patents_fts ++ [ftsRowOf r] })
    { patents := [], patents_fts := s.patents_fts }

/-- The `total_patents` aggregation: `SELECT COUNT(*) FROM patents`. -/
def total_patents (s : DBState) : Nat := s.patents.length

/-! ## The custom relevance scorer -/

/-- The privileged category subset receiving the 1.2 boost. -/
def boostedCategory (c : String) : Prop :=
  c = "artificial_intelligence" ∨ c = "telecommunications"

instance (c : String) : Decidable (boostedCategory c) := by
  unfold boostedCategory; infer_instance

/-- The inner loop of `calculate_custom_score`: over the query terms,
add `tf * weight` to the accumulator whenever the term frequency `tf`
in the (already lower-cased) field text is positive. -/
def scoreTermsFold (ft : String) (w : ℚ) (terms : List String) (acc : ℚ) : ℚ :=
  terms.foldl
    (fun s2 t =>
      let tf := pyCount ft t
      if 0 < tf then s2 + (tf : ℚ) * w else s2)
    acc

/-- The outer loop of `calculate_custom_score` over the field-weight
table, skipping fields whose lower-cased text is empty. -/
def scoreFieldsFold (terms : List String) (fields : List (String × ℚ)) (acc : ℚ) : ℚ :=
  fields.foldl
    (fun sc fw =>
      let ft := pyLower fw.1
      if ft ≠ "" then scoreTermsFold ft fw.2 terms sc else sc)
    acc

/-- `calculate_custom_score`: for each field of the fixed weight table
(in dict insertion order), for each lower-cased query term, add
(occurrence count) x (weight) whenever the count is positive, skipping
fields whose text is empty; finally multiply by 1.2 = 6/5 when the
record's category is privileged.  Python floats are idealized as `ℚ`
(all intermediate values here are exact in the model). -/
def calculate_custom_score (p : Patent) (q : String) : ℚ :=
  let query_terms := pySplitWs (pyLower q)
  let score := scoreFieldsFold query_terms
    [(p.title, 3), (p.abstract, 2), (p.claims, 3/2), (p.description, 1)] 0
  if boostedCategory p.category then score * (6/5) else score

/-- Spec-side formulation: per-field sum of term frequencies of the
lower-cased query terms in the lower-cased field text. -/
def termFreqSum (field : String) (terms : List String) : ℚ :=
  (terms.map (fun t => (pyCount (pyLower field) t : ℚ))).sum

/-- Spec-side score: weighted sum over the field table, boosted 6/5 for
the privileged categories. -/
def specScore (p : Patent) (q : String) : ℚ :=
  let terms := pySplitWs (pyLower q)
  (if boostedCategory p.category then (6/5 : ℚ) else 1) *
    (3 * termFreqSum p.title terms + 2 * termFreqSum p.abstract terms +
      (3/2) * termFreqSum p.claims terms + 1 * termFreqSum p.description terms)

/-! ## Field search -/

/-- The allow-list of `search_by_field`. -/
def validFields : List String := ["assignee", "category", "ipc_class", "inventors"]

/-- The column text `LIKE '%value%'` is matched against (the `inventors`
column stores the JSON serialization). -/
def fieldColumn (p : Patent) : String → String
  | "assignee" => p.assignee
  | "category" => p.category
  | "ipc_class" => p.ipc_class
  | "inventors" => jsonDumps p.inventors
  | _ => ""

/-- SQLite `LIKE '%v%'` is an ASCII-case-insensitive substring match. -/
def sqlLikeSub (v text : String) : Bool :=
  containsSub (pyLower v).data (pyLower text).data

/-- `search_by_field`: raises `ValueError` (modelled as `Except.error`)
for a field outside the allow-list, otherwise returns up to `limit`
rows whose column matches the substring. -/
def search_by_field (s : DBState) (field value : String) (limit : Nat) :
    Except String (List Patent) :=
  if field ∉ validFields then
    .error "Invalid field"
  else
    .ok ((s.patents.filter (fun p => sqlLikeSub value (fieldColumn p field))).take limit)

/-! ## The XML element model and the parser's extractors -/

/-- An `xml.etree.ElementTree.Element`: tag, optional text, children in
document order, optional tail text.  Attributes are not modelled (the
extractors never read them). -/
inductive Element where
  | mk (tag : String) (text : Option String) (children : List Element) (tail : Option String)

def Element.tag : Element → String
  | .mk t _ _ _ => t

def Element.text : Element → Option String
  | .mk _ tx _ _ => tx

def Element.children : Element → List Element
  | .mk _ _ cs _ => cs

def Element.tail : Element → Option String
  | .mk _ _ _ tl => tl

mutual
/-- All nodes of the subtree rooted at `e`, in document (preorder) order. -/
def preorder : Element → List Element
  | .mk t tx cs tl => .mk t tx cs tl :: preorderList cs

def preorderList : List Element → List Element
  | [] => []
  | c :: cs => preorder c ++ preorderList cs
end

/-- The proper descendants of `e` in document order (what `.//` ranges over). -/
def descendantsOf (e : Element) : List Element := preorderList e.children

/-- One step of the restricted XPath subset the parser uses. -/
inductive PStep where
  | child (tag : String)
  | desc (tag : String)

/-- Evaluate one path step over a node set, in document order. -/
def stepCtx (ctx : List Element) : PStep → List Element
  | .child t => ctx.flatMap (fun e => e.children.filter (fun c => c.tag == t))
  | .desc t => ctx.flatMap (fun e => (descendantsOf e).filter (fun c => c.tag == t))

/-- `Element.findall` for the path forms used (`.//a`, `.//a/b`, `.//a//b`). -/
def findallPath (e : Element) (p : List PStep) : List Element :=
  p.foldl stepCtx [e]

/-- `Element.find`: first match in document order, if any. -/
def findPath (e : Element) (p : List PStep) : Option Element :=
  (findallPath e p).head?

/-- `find_element_flexible`: first path whose `find` hits an element
(a structural check - the element may have empty text). -/
def find_element_flexible (e : Element) (paths : List (List PStep)) : Option Element :=
  paths.findSome? (fun p => findPath e p)

/-- Python truthiness of an optional string (`None` and `""` are falsy). -/
def optTruthy : Option String → Bool
  | none => false
  | some s => s ≠ ""

/-- Rendering an optional string inside an f-string (`None` prints "None"). -/
def fstr : Option String → String
  | none => "None"
  | some s => s

mutual
/-- `extract_text_content`: the element's own stripped text, each child's
recursively extracted text, and each child's stripped tail, joined by
single spaces with empty fragments filtered out. -/
def extract_text_content : Element → String
  | .mk _ tx cs _ =>
    let parts := (match tx with
      | some t => if t ≠ "" then [t.trim] else []
      | none => []) ++ childTextParts cs
    String.intercalate " " (parts.filter (fun t => t ≠ ""))

def childTextParts : List Element → List String
  | [] => []
  | c :: cs =>
    let ct := extract_text_content c
    (if ct ≠ "" then [ct] else []) ++
    (match c.tail with
      | some t => if t ≠ "" then [t.trim] else []
      | none => []) ++
    childTextParts cs
end

/-- Characters kept by `clean_text`'s allow-list `[\w\s\-.,;:()\[\]]`
(`\w` modelled as ASCII alphanumerics plus underscore). -/
def allowedChar (c : Char) : Bool :=
  c.isAlphanum || c = '_' || c.isWhitespace || c = '-' || c = '.' || c = ',' ||
  c = ';' || c = ':' || c = '(' || c = ')' || c = '[' || c = ']'

/-- Collapse every whitespace run into a single space (`re.sub(r'\s+', ' ', .)`). -/
def collapseWs : List Char → List Char
  | [] => []
  | c :: cs =>
    if c.isWhitespace then ' ' :: collapseWs (cs.dropWhile Char.isWhitespace)
    else c :: collapseWs cs
termination_by l => l.length
decreasing_by
  · simp only [List.length_cons]
    have := (List.dropWhile_suffix (l := cs) Char.isWhitespace).sublist.length_le
    omega
  · simp

/-- `clean_text`: empty for falsy input; otherwise strip, collapse
whitespace, blank out characters outside the allow-list, and truncate
to 5000 characters. -/
def clean_text (t : String) : String :=
  if t = "" then ""
  else String.mk (((collapseWs t.trim.data).map
    (fun c => if allowedChar c then c else ' ')).take 5000)

/-- The ordered title path candidates. -/
def titlePaths : List (List PStep) :=
  [[.desc "invention-title"], [.desc "title-of-invention"],
   [.desc "invention-title-text"], [.desc "title"]]

/-- The ordered abstract path candidates. -/
def abstractPaths : List (List PStep) :=
  [[.desc "abstract"], [.desc "abstract-text"], [.desc "subdoc-abstract"]]

/-- The ordered claims path candidates. -/
def claimsPaths : List (List PStep) :=
  [[.desc "claims"], [.desc "claim"], [.desc "subdoc-claims"]]

/-- The ordered description path candidates. -/
def descriptionPaths : List (List PStep) :=
  [[.desc "description"], [.desc "detailed-description"], [.desc "subdoc-description"]]

/-- The ordered identifier path candidates of `extract_patent_id`. -/
def idPaths : List (List PStep) :=
  [[.desc "document-id", .child "doc-number"],
   [.desc "publication-reference", .desc "doc-number"],
   [.desc "application-reference", .desc "doc-number"],
   [.desc "subdoc-bibliographic-information", .desc "document-id", .child "doc-number"],
   [.desc "patent-number"],
   [.desc "application-number"]]

/-- `extract_patent_id`: first identifier path whose element has truthy
text that remains non-empty after stripping; otherwise the
`PATENT_{hash(str(elem))}` fallback, supplied here as a parameter `fb`
(its run- and identity-dependence is analysed separately). -/
def extract_patent_id (fb : Element → String) (e : Element) : String :=
  match idPaths.findSome? (fun p =>
    match findPath e p with
    | some el =>
      match el.text with
      | some t => if t ≠ "" then (if t.trim ≠ "" then some t.trim else none) else none
      | none => none
    | none => none) with
  | some pid => pid
  | none => fb e

/-- The ordered assignee block path candidates. -/
def assigneePaths : List (List PStep) :=
  [[.desc "assignees", .child "assignee"], [.desc "assignee"],
   [.desc "subdoc-bibliographic-information", .desc "assignee"]]

/-- The organisation-name paths tried inside an assignee block. -/
def orgPaths : List (List PStep) :=
  [[.desc "orgname"], [.desc "organization-name"], [.desc "assignee-name"]]

/-- `extract_assignee_robust`: for each assignee path whose block exists,
prefer a truthy organisation name, else a composed person name when both
first and last name elements exist; default sentinel otherwise. -/
def extract_assignee_robust (e : Element) : String :=
  match assigneePaths.findSome? (fun path =>
    match findPath e path with
    | some blk =>
      (match orgPaths.findSome? (fun op =>
        match findPath blk op with
        | some org => if optTruthy org.text then some ((fstr org.text).trim) else none
        | none => none) with
      | some org => some org
      | none =>
        match findPath blk [.desc "first-name"], findPath blk [.desc "last-name"] with
        | some fn, some ln => some ((fstr fn.text ++ " " ++ fstr ln.text).trim)
        | _, _ => none)
    | none => none) with
  | some a => a
  | none => "Unknown Assignee"

/-- The ordered inventor path candidates. -/
def inventorPaths : List (List PStep) :=
  [[.desc "inventors", .child "inventor"], [.desc "inventor"],
   [.desc "subdoc-bibliographic-information", .desc "inventor"]]

/-- `extract_inventors_robust`: scan every match of every inventor path,
compose first/last names, accumulate distinct names in first-seen order;
sentinel list when nothing is found. -/
def extract_inventors_robust (e : Element) : List String :=
  let names := inventorPaths.foldl
    (fun acc path =>
      (findallPath e path).foldl
        (fun acc2 inv =>
          match findPath inv [.desc "first-name"], findPath inv [.desc "last-name"] with
          | some fn, some ln =>
            let name := (fstr fn.text ++ " " ++ fstr ln.text).trim
            if name ∈ acc2 then acc2 else acc2 ++ [name]
          | _, _ => acc2)
        acc)
    []
  if names = [] then ["Unknown Inventor"] else names

/-- `format_date`: strip non-digits, then render the first 8/6/4 digits
as an ISO date, defaulting to January (and the current year, passed as
`year`) for missing components. -/
def format_date (year : Nat) (s : String) : String :=
  if 8 ≤ (s.data.filter Char.isDigit).length then
    String.mk ((s.data.filter Char.isDigit).take 4) ++ "-" ++
      String.mk (((s.data.filter Char.isDigit).drop 4).take 2) ++ "-" ++
      String.mk (((s.data.filter Char.isDigit).drop 6).take 2)
  else if 6 ≤ (s.data.filter Char.isDigit).length then
    String.mk ((s.data.filter Char.isDigit).take 4) ++ "-" ++
      String.mk (((s.data.filter Char.isDigit).drop 4).take 2) ++ "-01"
  else if 4 ≤ (s.data.filter Char.isDigit).length then
    String.mk ((s.data.filter Char.isDigit).take 4) ++ "-01-01"
  else
    toString year ++ "-01-01"

/-- The ordered application-date path candidates. -/
def appDatePaths : List (List PStep) :=
  [[.desc "application-reference", .desc "date"], [.desc "filing-date"],
   [.desc "subdoc-bibliographic-information", .desc "filing-date"]]

/-- The ordered publication-date path candidates. -/
def pubDatePaths : List (List PStep) :=
  [[.desc "publication-reference", .desc "date"], [.desc "publication-date"],
   [.desc "subdoc-bibliographic-information", .desc "publication-date"]]

/-- `extract_dates_robust` for one date kind: first path with truthy text
wins; default `<year>-01-01`. -/
def extractDate (year : Nat) (e : Element) (paths : List (List PStep)) : String :=
  match paths.findSome? (fun p =>
    match findPath e p with
    | some el => if optTruthy el.text then some (format_date year (fstr el.text)) else none
    | none => none) with
  | some d => d
  | none => toString year ++ "-01-01"

/-- The IPC classification path candidates. -/
def ipcPaths : List (List PStep) :=
  [[.desc "classifications-ipc", .desc "main-classification"],
   [.desc "classification-ipc", .desc "main-classification"],
   [.desc "ipc-classification"], [.desc "classification-ipc"]]

/-- The national (US) classification path candidates. -/
def usPaths : List (List PStep) :=
  [[.desc "classification-us", .desc "main-classification"],
   [.desc "us-classification"], [.desc "classification-national"]]

/-- `extract_classifications_robust`: every truthy IPC code in source
order; if none, the US codes with a `US` prefix tag; else `["G06F"]`. -/
def extract_classifications_robust (e : Element) : List String :=
  let ipc := ipcPaths.foldl
    (fun acc p => acc ++ (findallPath e p).foldl
      (fun a el => if optTruthy el.text then a ++ [(fstr el.text).trim] else a) [])
    []
  let cls :=
    if ipc = [] then
      usPaths.foldl
        (fun acc p => acc ++ (findallPath e p).foldl
          (fun a el => if optTruthy el.text then a ++ ["US" ++ (fstr el.text).trim] else a) [])
        []
    else ipc
  if cls = [] then ["G06F"] else cls

/-- The broad first-letter IPC category map. -/
def ipcCategories : List (Char × String) :=
  [('A', "human_necessities"), ('B', "performing_operations"),
   ('C', "chemistry_metallurgy"), ('D', "textiles_paper"),
   ('E', "fixed_constructions"), ('F', "mechanical_engineering"),
   ('G', "physics"), ('H', "electricity")]

/-- The specific category table in dict insertion (priority) order. -/
def specificPatterns : List (String × List String) :=
  [("artificial_intelligence", ["G06N", "AI", "machine learning", "neural network"]),
   ("telecommunications", ["H04", "communication", "wireless", "network"]),
   ("biotechnology", ["C12", "A61", "genetic", "biological", "medical"]),
   ("semiconductors", ["H01L", "semiconductor", "transistor", "chip"]),
   ("automotive", ["B60", "vehicle", "automotive", "car"]),
   ("energy", ["H02", "F03", "solar", "battery", "energy"])]

/-- One trigger matches when its lower-cased form occurs in the
lower-cased title or the raw form occurs in the classification code. -/
def triggerHits (tl ipc pat : String) : Bool :=
  strContains tl (pyLower pat) || strContains ipc pat

/-- The inner loops of `categorize_patent`: first category any of whose
triggers hits. -/
def firstCategory (tl ipc : String) : List (String × List String) → Option String
  | [] => none
  | (cat, pats) :: rest =>
    if pats.any (fun p => triggerHits tl ipc p) then some cat
    else firstCategory tl ipc rest

/-- `categorize_patent`: empty code defaults to `G06F`; first specific
category with a matching trigger wins; else the first-letter broad map,
else `other`. -/
def categorize_patent (ipc0 title : String) : String :=
  let ipc := if ipc0 = "" then "G06F" else ipc0
  let tl := pyLower title
  match firstCategory tl ipc specificPatterns with
  | some cat => cat
  | none =>
    match ipc.data with
    | [] => "other"
    | c :: _ =>
      match ipcCategories.lookup c.toUpper with
      | some broad => broad
      | none => "other"

/-- The normalized title of a document (`"Untitled"` when no title path
matches). -/
def titleOf (e : Element) : String :=
  match find_element_flexible e titlePaths with
  | some el => clean_text (extract_text_content el)
  | none => "Untitled"

/-- The normalized abstract of a document. -/
def abstractOf (e : Element) : String :=
  match find_element_flexible e abstractPaths with
  | some el => clean_text (extract_text_content el)
  | none => "No abstract available"

/-- `extract_patent_data_robust`: assemble the candidate record and
reject it (returning `none`, raising nothing) exactly when the
normalized title is shorter than 5 or the normalized abstract shorter
than 10 characters.  `fb` is the content-independent id fallback, `year`
the current year. -/
def extract_patent_data_robust (fb : Element → String) (year : Nat) (e : Element) :
    Option Patent :=
  let title := titleOf e
  let abstract := abstractOf e
  let claimsTxt := match find_element_flexible e claimsPaths with
    | some el => clean_text (extract_text_content el)
    | none => "No claims available"
  let descTxt := match find_element_flexible e descriptionPaths with
    | some el => extract_text_content el
    | none => ""
  let ipc_classes := extract_classifications_robust e
  let ipc_class := match ipc_classes.head? with
    | some c => c
    | none => "G06F"
  if title.length < 5 ∨ abstract.length < 10 then none
  else some
    { id := extract_patent_id fb e
      title := title
      abstract := abstract
      description := String.mk ((clean_text descTxt).data.take 3000)
      claims := claimsTxt
      assignee := extract_assignee_robust e
      inventors := extract_inventors_robust e
      application_date := extractDate year e appDatePaths
      publication_date := extractDate year e pubDatePaths
      ipc_class := ipc_class
      ipc_classes := ipc_classes
      category := categorize_patent ipc_class title }

/-- The root-level candidate list of `extract_from_root`. -/
def patentApplicationsOf (root : Element) : List Element :=
  let apps := findallPath root [.desc "us-patent-application"] ++
    findallPath root [.desc "patent-application-publication"] ++
    findallPath root [.desc "us-patent-grant"]
  if apps.isEmpty then
    if root.tag.endsWith "patent-application" || root.tag.endsWith "patent-grant" ||
        strContains (pyLower root.tag) "patent" then [root]
    else []
  else apps

/-- `extract_from_root`: extract each candidate, keeping only records
that were produced and have truthy title and abstract. -/
def extract_from_root (fb : Element → String) (year : Nat) (root : Element) :
    List Patent :=
  (patentApplicationsOf root).flatMap (fun app =>
    match extract_patent_data_robust fb year app with
    | some r => if r.title ≠ "" ∧ r.abstract ≠ "" then [r] else []
    | none => [])

/-! ## The id fallback of `extract_patent_id` -/

/-- Hexadecimal rendering of a CPython object address. -/
def natToHex (n : Nat) : String := String.mk (Nat.toDigits 16 n)

/-- CPython `str(element)`: a repr embedding the object memory address,
not the document content (the quote characters around the tag in the
real repr are elided; they carry no information). -/
def pyReprElement (tag : String) (addr : Nat) : String :=
  "<Element " ++ tag ++ " at 0x" ++ natToHex addr ++ ">"

/-- The code's fallback id `f"PATENT_{hash(str(patent_elem))}"[:15]`.
`h` stands for the per-process (salted) `hash` on strings; `addr` is the
element object's address appearing in its repr. -/
def fallbackPatentId (h : String → Int) (tag : String) (addr : Nat) : String :=
  String.mk (("PATENT_" ++ toString (h (pyReprElement tag addr))).data.take 15)

/-! ## The query engine -/

/-- FTS5 `unicode61` tokenization (ASCII model): case-fold and split at
non-alphanumeric characters. -/
def ftsTokens (s : String) : List String :=
  ((((pyLower s).data.splitOnP (fun c => !c.isAlphanum)).map String.mk).filter
    (fun t => t ≠ ""))

/-- The token stream of one indexed row (all indexed columns; `id` is
UNINDEXED, `inventors` holds the JSON serialization). -/
def patentTokens (p : Patent) : List String :=
  ftsTokens p.title ++ ftsTokens p.abstract ++ ftsTokens p.description ++
  ftsTokens p.claims ++ ftsTokens p.assignee ++ ftsTokens (jsonDumps p.inventors) ++
  ftsTokens p.ipc_class ++ ftsTokens p.category

/-- `prepare_fts_query`: strip punctuation (`[^\w\s]` to space), split on
whitespace; each term becomes a quoted prefix query, multiple terms are
OR-ed. -/
def ftsQueryTerms (q : String) : List String :=
  pySplitWs (String.mk (q.data.map
    (fun c => if c.isAlphanum || c = '_' || c.isWhitespace then c else ' ')))

/-- The disjunctive prefix-match semantics of the prepared FTS query. -/
def ftsMatches (q : String) (p : Patent) : Bool :=
  (ftsQueryTerms q).any (fun t =>
    (patentTokens p).any (fun tok => (pyLower t).data.isPrefixOf tok.data))

/-- The conjunction of the optional category / assignee / date filters. -/
def filtersPass (cat asg : Option String) (dr : Option (String × String))
    (p : Patent) : Bool :=
  (match cat with | some c => p.category == c | none => true) &&
  (match asg with | some a => sqlLikeSub a p.assignee | none => true) &&
  (match dr with
    | some lohi => decide (lohi.1 ≤ p.publication_date) &&
        decide (p.publication_date ≤ lohi.2)
    | none => true)

/-- Ascending stable insertion by the index's rank key (the model of
`ORDER BY rank`; `rk` abstracts the FTS5 bm25 rank). -/
def insertAsc (rk : Patent → ℚ) (x : Patent) : List Patent → List Patent
  | [] => [x]
  | y :: ys => if rk y ≤ rk x then y :: insertAsc rk x ys else x :: y :: ys

/-- Sort of the matching rows by rank. -/
def sortAsc (rk : Patent → ℚ) : List Patent → List Patent
  | [] => []
  | x :: xs => insertAsc rk x (sortAsc rk xs)

/-- The SQL stage of `search`: the FTS match joined back to the stored
rows, filtered, ordered by rank and capped by `LIMIT ?` - so `limit`
bounds the candidate count before re-ranking. -/
def sqlOrderedCandidates (rk : Patent → ℚ) (s : DBState) (q : String)
    (cat asg : Option String) (dr : Option (String × String)) (limit : Nat) :
    List Patent :=
  (sortAsc rk (s.patents.filter
    (fun p => ftsMatches q p && filtersPass cat asg dr p))).take limit

/-- Stable descending insertion by score: a new element goes before the
first element with a score not above its own, so earlier (retrieval
order) elements keep their place among equal scores - the model of
Python's stable `list.sort(key=score, reverse=True)`. -/
def insertDesc (x : Patent × ℚ) : List (Patent × ℚ) → List (Patent × ℚ)
  | [] => [x]
  | y :: ys => if x.2 < y.2 then y :: insertDesc x ys else x :: y :: ys

/-- Stable sort, descending by score. -/
def sortDescByScore : List (Patent × ℚ) → List (Patent × ℚ)
  | [] => []
  | x :: xs => insertDesc x (sortDescByScore xs)

/-- `search`: retrieve the capped candidates, attach the custom score,
re-sort descending by it (stable). -/
def search (rk : Patent → ℚ) (s : DBState) (q : String) (limit : Nat)
    (cat asg : Option String) (dr : Option (String × String)) :
    List (Patent × ℚ) :=
  sortDescByScore ((sqlOrderedCandidates rk s q cat asg dr limit).map
    (fun p => (p, calculate_custom_score p q)))

/-! ## The document splitter

`parse_concatenated_xml` scans the input with the pattern

  `<\?xml version="1\.0"[^>]*\?>\s*<!DOCTYPE[^>]*>\s*`
  `<us-patent-application[^>]*>.*?</us-patent-application>`

under `re.DOTALL`, falling back to `split_by_lines_improved` only when
the scan yields zero matches.  Each quantified sub-pattern here has a
unique viable extent (`[^>]*\?>` must end at the first `>`, which must
be preceded by `?`; `[^>]*>` ends at the first `>`; `\s*` is a maximal
whitespace run followed by a non-whitespace literal; the lazy `.*?`
stops at the first occurrence of the closing tag), so the scanner below
is an exact functional model of the regex search. -/

def declLit : List Char := "<?xml version=\"1.0\"".data

def doctypeLit : List Char := "<!DOCTYPE".data

def openTagLit : List Char := "<us-patent-application".data

def closeTagLit : List Char := "</us-patent-application>".data

/-- Consume a literal. -/
def stripLit (lit s : List Char) : Option (List Char) :=
  if lit.isPrefixOf s then some (s.drop lit.length) else none

/-- `[^>]*\?>`: succeed after the first `>` if it is preceded by `?`. -/
def scanQGt : List Char → Option (List Char)
  | [] => none
  | [_] => none
  | a :: b :: rest =>
    if a = '?' then
      (if b = '>' then some rest else scanQGt (b :: rest))
    else if a = '>' then none
    else scanQGt (b :: rest)

/-- `[^>]*>`: consume through the first `>`. -/
def scanGt : List Char → Option (List Char)
  | [] => none
  | c :: rest => if c = '>' then some rest else scanGt rest

/-- `\s*` before a non-whitespace literal. -/
def dropWsL (s : List Char) : List Char := s.dropWhile Char.isWhitespace

/-- Lazy `.*?pat` (DOTALL): consume through the first occurrence of `pat`. -/
def scanFirst (pat : List Char) : List Char → Option (List Char)
  | [] => none
  | c :: cs =>
    if pat.isPrefixOf (c :: cs) then some ((c :: cs).drop pat.length)
    else scanFirst pat cs

/-- Match the whole document pattern anchored at the start of `s`,
returning the unconsumed remainder on success. -/
def matchDocAt (s : List Char) : Option (List Char) :=
  (stripLit declLit s).bind fun s1 =>
  (scanQGt s1).bind fun s2 =>
  (stripLit doctypeLit (dropWsL s2)).bind fun s4 =>
  (scanGt s4).bind fun s5 =>
  (stripLit openTagLit (dropWsL s5)).bind fun s7 =>
  (scanGt s7).bind fun s8 =>
  scanFirst closeTagLit s8

/-- `re.finditer`: leftmost non-overlapping matches, resuming after each
match.  `fuel` (instantiated with the input length) only discharges
termination. -/
def regexFindAux : Nat → List Char → List (List Char)
  | 0, _ => []
  | _, [] => []
  | fuel + 1, c :: cs =>
    match matchDocAt (c :: cs) with
    | some rest =>
      (c :: cs).take ((c :: cs).length - rest.length) :: regexFindAux fuel rest
    | none => regexFindAux fuel cs

/-- The regex strategy: the list of matched document fragments. -/
def regexFindDocs (s : List Char) : List (List Char) :=
  regexFindAux s.length s

/-- Python `line.strip()` at the char-list level. -/
def trimL (l : List Char) : List Char :=
  ((l.dropWhile Char.isWhitespace).reverse.dropWhile Char.isWhitespace).reverse

/-- `content.split('\n')`. -/
def splitOnNl : List Char → List (List Char)
  | [] => [[]]
  | c :: rest =>
    if c = '\n' then [] :: splitOnNl rest
    else
      match splitOnNl rest with
      | x :: xs => (c :: x) :: xs
      | [] => [[c]]

/-- Fold state of `split_by_lines_improved`. -/
structure SBLState where
  documents : List (List Char)
  current : List Char
  started : Bool
  depth : Int

/-- One line of the depth-tracked line scan. -/
def sblStep (st : SBLState) (line : List Char) : SBLState :=
  let stripped := trimL line
  if declLit.isPrefixOf stripped then
    { documents := st.documents ++
        (if st.started ∧ trimL st.current ≠ [] then [trimL st.current] else []),
      current := line ++ ['\n'], started := true, depth := 0 }
  else if st.started then
    let current := st.current ++ line ++ ['\n']
    if containsSub openTagLit stripped then
      { st with current := current, depth := st.depth + 1 }
    else if containsSub closeTagLit stripped then
      let depth := st.depth - 1
      if depth = 0 then
        { documents := st.documents ++ [trimL current], current := [],
          started := false, depth := depth }
      else { st with current := current, depth := depth }
    else { st with current := current }
  else st

/-- `split_by_lines_improved`: the fallback line scan. -/
def split_by_lines_improved (content : List Char) : List (List Char) :=
  let st := (splitOnNl content).foldl sblStep ⟨[], [], false, 0⟩
  st.documents ++ (if trimL st.current ≠ [] then [trimL st.current] else [])

/-- The splitter of `parse_concatenated_xml`: the regex scan, and the
line scan only when the regex scan yields zero matches. -/
def splitDocuments (content : String) : List String :=
  let docs := (regexFindDocs content.data).map String.mk
  if docs.isEmpty then (split_by_lines_improved content.data).map String.mk
  else docs

/-! ## Canonical concatenated-document inputs for the splitter claims -/

/-- One independently valid patent document: an XML declaration (with
`>`-free extra attributes), a `>`-free DOCTYPE, a root
`us-patent-application` element with `>`-free attributes, and a body. -/
structure PatentDoc where
  dAttrs : String
  dtBody : String
  rAttrs : String
  body : String

/-- Rendering of such a document. -/
def renderL (d : PatentDoc) : List Char :=
  declLit ++ d.dAttrs.data ++ ('?' :: '>' :: '\n' :: []) ++
  doctypeLit ++ d.dtBody.data ++ ('>' :: '\n' :: []) ++
  openTagLit ++ d.rAttrs.data ++ ('>' :: []) ++
  d.body.data ++ closeTagLit

/-- The document as a string. -/
def renderDoc (d : PatentDoc) : String := String.mk (renderL d)

/-- Validity: attribute and DOCTYPE segments are `>`-free (as in any
well-formed declaration/DOCTYPE/start tag), and the body contains no
occurrence of the closing root tag before the final one (a well-formed
body cannot close the root element early). -/
def ValidDoc (d : PatentDoc) : Prop :=
  (∀ c ∈ d.dAttrs.data, c ≠ '>') ∧
  (∀ c ∈ d.dtBody.data, c ≠ '>') ∧
  (∀ c ∈ d.rAttrs.data, c ≠ '>') ∧
  containsSub closeTagLit (d.body.data ++ closeTagLit.dropLast) = false

instance (d : PatentDoc) : Decidable (ValidDoc d) := by
  unfold ValidDoc; infer_instance

/-- Back-to-back concatenation of documents. -/
def concatDocs (ds : List PatentDoc) : String :=
  String.mk ((ds.map renderL).foldr (· ++ ·) [])

/-! ## Spec-side formulations and concrete instances used by the claims -/

/-- Spec-side categorizer: the first category (in the fixed priority
order) some trigger of which occurs in the lower-cased title or in the
classification code; else the first-letter broad-category map; else
`other`. -/
def specCategorize (ipc0 title : String) : String :=
  let ipc := if ipc0 = "" then "G06F" else ipc0
  let tl := pyLower title
  match specificPatterns.find? (fun cp => cp.2.any (fun p => triggerHits tl ipc p)) with
  | some cp => cp.1
  | none =>
    match ipc.data with
    | [] => "other"
    | c :: _ => (ipcCategories.lookup c.toUpper).getD "other"

/-- Year strings of the shape `datetime.now().year` produces (four
ASCII digits). -/
def validYearStr (y : Nat) : Prop :=
  (toString y).data.length = 4 ∧ ∀ c ∈ (toString y).data, c.isDigit = true

instance (y : Nat) : Decidable (validYearStr y) := by
  unfold validYearStr; infer_instance

/-- `\d{4}-\d{2}-\d{2}` on a character list. -/
def isIsoShapeL : List Char → Bool
  | [y1, y2, y3, y4, h1, m1, m2, h2, d1, d2] =>
    y1.isDigit && y2.isDigit && y3.isDigit && y4.isDigit && (h1 == '-') &&
    m1.isDigit && m2.isDigit && (h2 == '-') && d1.isDigit && d2.isDigit
  | _ => false

/-- Syntactic ISO-date shape of a string. -/
def isIsoShape (s : String) : Bool := isIsoShapeL s.data

/-- A stand-in for one process's salted `hash : str -> int` (any
function of the repr string; this one distinguishes the two reprs used
in the C4 counterexample). -/
def hashStub : String → Int := fun s => (s.length : Int)

/-- A record with `"network"` three times in the title and nowhere else
(category outside the privileged subset). -/
def c2TitleRecord : Patent :=
  { id := "T1", title := "network network network", abstract := "",
    description := "", claims := "", assignee := "", inventors := [],
    application_date := "", publication_date := "", ipc_class := "",
    ipc_classes := [], category := "other" }

/-- A record with `"network"` once in the abstract and nowhere else. -/
def c2AbstractRecord : Patent :=
  { id := "T2", title := "", abstract := "a network device", description := "",
    claims := "", assignee := "", inventors := [], application_date := "",
    publication_date := "", ipc_class := "", ipc_classes := [],
    category := "other" }

/-- A well-formed record for exercising `index_patents`. -/
def c1Record : Patent :=
  { id := "P1", title := "Widget frame", abstract := "A frame for widgets.",
    description := "", claims := "", assignee := "Acme", inventors := ["A B"],
    application_date := "2023-01-01", publication_date := "2023-01-01",
    ipc_class := "G06F", ipc_classes := ["G06F"], category := "physics" }

/-- A non-empty index state: the result of indexing `c1Record` into a
fresh database. -/
def c1State : DBState := index_patents [c1Record] { patents := [], patents_fts := [] }

/-- A parsed document containing no title element and no abstract
element under any candidate path. -/
def c10Elem : Element := .mk "us-patent-application" none [] none

/-- An arbitrary id fallback (its value is irrelevant to the claims that
use it). -/
def fbTest : Element → String := fun _ => "PATENT_TEST"

/-- Two small valid documents for the splitter witness. -/
def c3Doc1 : PatentDoc := { dAttrs := "", dtBody := " d1", rAttrs := "", body := "first" }

def c3Doc2 : PatentDoc :=
  { dAttrs := " encoding=\"UTF-8\"", dtBody := " d2", rAttrs := " id=\"a\"",
    body := "second body" }

/-- The two-document concatenation input of the splitter witness. -/
def c3Docs : List PatentDoc := [c3Doc1, c3Doc2]

/-! ## Helper lemmas -/

theorem containsSub_eq_true_iff (pat : List Char) (s : List Char) :
    containsSub pat s = true ↔ ∃ l r, s = l ++ pat ++ r := by
  induction s with
  | nil =>
    simp only [containsSub, List.isEmpty_iff]
    constructor
    · rintro rfl; exact ⟨[], [], rfl⟩
    · rintro ⟨l, r, h⟩
      exact (List.append_eq_nil.mp (List.append_eq_nil.mp h.symm).1).2
  | cons c cs ih =>
    simp only [containsSub, Bool.or_eq_true, ih]
    constructor
    · rintro (hpre | ⟨l, r, rfl⟩)
      · rcases List.isPrefixOf_iff_prefix.mp hpre with ⟨t, ht⟩
        exact ⟨[], t, by simp [← ht]⟩
      · exact ⟨c :: l, r, by simp⟩
    · rintro ⟨l, r, h⟩
      cases l with
      | nil =>
        left
        exact List.isPrefixOf_iff_prefix.mpr ⟨r, by simpa using h.symm⟩
      | cons x l' =>
        right
        exact ⟨l', r, ((List.cons.injEq c cs x (l' ++ pat ++ r)).mp (by simpa using h)).2⟩

theorem string_ne_empty_data {t : String} (ht : t ≠ "") : t.data ≠ [] := by
  intro h
  apply ht
  cases t with
  | mk d =>
    simp only [String.data] at h
    subst h
    rfl

theorem pyCountAux_nil (pat : List Char) (fuel : Nat) : pyCountAux pat fuel [] = 0 := by
  cases fuel <;> simp [pyCountAux]

theorem pyCount_empty_text {t : String} (ht : t ≠ "") : pyCount "" t = 0 := by
  unfold pyCount
  rw [if_neg (string_ne_empty_data ht)]
  exact pyCountAux_nil t.data _

theorem mem_pySplitWs_ne_empty {s t : String} (h : t ∈ pySplitWs s) : t ≠ "" := by
  simpa using (List.mem_filter.mp h).2

/-! ## C1 -/

/-- C1: the claim states `index_patents(records)` first deletes every
existing stored record AND every derived index entry.  The code clears
only the `patents` table; no FTS delete trigger exists, so the prior
generation's `patents_fts` entries survive the rebuild.  The claimed
observable `total_patents == 0` after `index_patents([])` does hold
(it counts the `patents` table): after rebuilding an index holding one
record with the empty list, the record table is empty and
`total_patents = 0`, yet the derived index entries are non-empty. -/
theorem C1_rebuild_clears_table_but_not_index :
    total_patents c1State = 1 ∧
    (index_patents [] c1State).patents = [] ∧
    total_patents (index_patents [] c1State) = 0 ∧
    (index_patents [] c1State).patents_fts ≠ [] := by
  refine ⟨rfl, rfl, rfl, ?_⟩
  decide

/-! ## C4 -/

/-- C4: the fallback id is `f"PATENT_{hash(str(patent_elem))}"[:15]`.
`str(patent_elem)` embeds the element object's memory address (not the
document content), and `hash` is salted per process, so the fallback is
not a deterministic function of the document's textual content: two
element objects with identical content but different addresses (or the
same object hashed in two runs) yield different ids.  Only the claimed
length bound (truncation to 15) holds. -/
theorem C4_fallback_id_not_content_deterministic :
    fallbackPatentId hashStub "us-patent-application" 16 ≠
      fallbackPatentId hashStub "us-patent-application" 256 ∧
    ∀ (h : String → Int) (tag : String) (addr : Nat),
      (fallbackPatentId h tag addr).length ≤ 15 := by
  constructor
  · decide
  · intro h tag addr
    show (List.take 15 _).length ≤ 15
    rw [List.length_take]
    exact min_le_left _ _

/-! ## C9 -/

/-- C9: `search_by_field` returns a `ValueError` (modelled as
`Except.error`) precisely when the field is outside the allow-list
`{assignee, category, ipc_class, inventors}`; for an allowed field it
returns (raising nothing) the rows whose column contains the value as a
substring, capped at `limit`. -/
theorem C9_search_by_field_allowlist :
    ∀ (s : DBState) (field value : String) (limit : Nat),
      ((∃ msg, search_by_field s field value limit = .error msg) ↔
        field ∉ validFields) ∧
      search_by_field s field value limit =
        (if field ∈ validFields then
          .ok ((s.patents.filter
            (fun p => sqlLikeSub value (fieldColumn p field))).take limit)
        else .error "Invalid field") := by
  intro s field value limit
  by_cases h : field ∈ validFields
  · simp [search_by_field, h]
  · simp [search_by_field, h]

/-! ## C5 -/

theorem firstCategory_eq_find? (tl ipc : String) (l : List (String × List String)) :
    firstCategory tl ipc l =
      (l.find? (fun cp => cp.2.any (fun p => triggerHits tl ipc p))).map Prod.fst := by
  induction l with
  | nil => rfl
  | cons cp rest ih =>
    obtain ⟨cat, pats⟩ := cp
    cases h : pats.any (fun p => triggerHits tl ipc p) with
    | true => simp [firstCategory, List.find?, h]
    | false => simp [firstCategory, List.find?, h, ih]

/-- C5: `categorize_patent` is a pure function equal to the spec's
first-match-wins description (fixed priority order over the specific
categories, trigger in lower-cased title or classification code, then
the first-letter broad map, then `other`); in particular a title
containing "neural network" with code `G06F1234` is categorized as
artificial intelligence, not as the physics fallback for prefix `G`,
which only applies when no trigger fires. -/
theorem C5_categorize_first_match_wins :
    (∀ ipc title, categorize_patent ipc title = specCategorize ipc title) ∧
    categorize_patent "G06F1234" "A neural network system" = "artificial_intelligence" ∧
    categorize_patent "G06F1234" "Metal frame" = "physics" ∧
    categorize_patent "H99x" "Metal frame" = "electricity" ∧
    categorize_patent "X99" "Metal frame" = "other" := by
  refine ⟨?_, by decide, by decide, by decide, by decide⟩
  intro ipc title
  simp only [categorize_patent, specCategorize]
  rw [firstCategory_eq_find?]
  rcases h : (specificPatterns.find?
      (fun cp => cp.2.any (fun p => triggerHits (pyLower title)
        (if ipc = "" then "G06F" else ipc) p))) with _ | cp
  · rw [h]
    rcases hd : (if ipc = "" then "G06F" else ipc).data with _ | ⟨c, rest⟩
    · simp [hd]
    · rcases hl : ipcCategories.lookup c.toUpper with _ | broad <;>
        simp [hd, hl, Option.getD]
  · rw [h]
    simp

/-! ## C6 -/

theorem isoShape_of_digits (a b c d e f g h : Char)
    (ha : a.isDigit) (hb : b.isDigit) (hc : c.isDigit) (hd : d.isDigit)
    (he : e.isDigit) (hf : f.isDigit) (hg : g.isDigit) (hh : h.isDigit) :
    isIsoShapeL [a, b, c, d, '-', e, f, '-', g, h] = true := by
  simp [isIsoShapeL, ha, hb, hc, hd, he, hf, hg, hh]

/-- C6: `format_date` never raises (it is a total function) and always
returns a string of the syntactic shape `\d{4}-\d{2}-\d{2}` (given a
current year that prints as four digits, as every real `datetime`
year in 1000..9999 does); the four spec examples hold, with `"garbage"`
mapping to the current-year default. -/
theorem C6_format_date_total_and_iso :
    (∀ (year : Nat) (s : String), validYearStr year →
        isIsoShape (format_date year s) = true) ∧
    (∀ year, format_date year "20230615" = "2023-06-15") ∧
    (∀ year, format_date year "202306" = "2023-06-01") ∧
    (∀ year, format_date year "2023" = "2023-01-01") ∧
    (∀ year, format_date year "garbage" = toString year ++ "-01-01") := by
  refine ⟨?_, fun year => rfl, fun year => rfl, fun year => rfl, fun year => rfl⟩
  intro year s hy
  have hdig : ∀ c ∈ s.data.filter Char.isDigit, c.isDigit := by
    intro c hc
    exact (List.mem_filter.mp hc).2
  simp only [format_date, isIsoShape]
  split_ifs with h8 h6 h4
  · rcases hds : s.data.filter Char.isDigit with _ | ⟨a, l⟩
    · rw [hds] at h8; simp at h8
    · rcases l with _ | ⟨b, l⟩
      · rw [hds] at h8; simp at h8
      · rcases l with _ | ⟨c, l⟩
        · rw [hds] at h8; simp at h8
        · rcases l with _ | ⟨d, l⟩
          · rw [hds] at h8; simp at h8
          · rcases l with _ | ⟨e, l⟩
            · rw [hds] at h8; simp at h8
            · rcases l with _ | ⟨f, l⟩
              · rw [hds] at h8; simp at h8
              · rcases l with _ | ⟨g, l⟩
                · rw [hds] at h8; simp at h8
                · rcases l with _ | ⟨h, l⟩
                  · rw [hds] at h8; simp at h8
                  · have hmem : ∀ x ∈ a :: b :: c :: d :: e :: f :: g :: h :: l,
                        Char.isDigit x := by rw [← hds]; exact hdig
                    have hdata : (String.mk ((a :: b :: c :: d :: e :: f :: g ::
                        h :: l).take 4) ++ "-" ++
                        String.mk (((a :: b :: c :: d :: e :: f :: g :: h ::
                        l).drop 4).take 2) ++ "-" ++
                        String.mk (((a :: b :: c :: d :: e :: f :: g :: h ::
                        l).drop 6).take 2)).data =
                        [a, b, c, d, '-', e, f, '-', g, h] := by
                      simp [String.data_append]
                    rw [hdata]
                    exact isoShape_of_digits a b c d e f g h
                      (hmem a (by simp)) (hmem b (by simp)) (hmem c (by simp))
                      (hmem d (by simp)) (hmem e (by simp)) (hmem f (by simp))
                      (hmem g (by simp)) (hmem h (by simp))
  · rcases hds : s.data.filter Char.isDigit with _ | ⟨a, l⟩
    · rw [hds] at h6; simp at h6
    · rcases l with _ | ⟨b, l⟩
      · rw [hds] at h6; simp at h6
      · rcases l with _ | ⟨c, l⟩
        · rw [hds] at h6; simp at h6
        · rcases l with _ | ⟨d, l⟩
          · rw [hds] at h6; simp at h6
          · rcases l with _ | ⟨e, l⟩
            · rw [hds] at h6; simp at h6
            · rcases l with _ | ⟨f, l⟩
              · rw [hds] at h6; simp at h6
              · have hmem : ∀ x ∈ a :: b :: c :: d :: e :: f :: l,
                    Char.isDigit x := by rw [← hds]; exact hdig
                have hdata : (String.mk ((a :: b :: c :: d :: e :: f :: l).take 4)
                    ++ "-" ++
                    String.mk (((a :: b :: c :: d :: e :: f :: l).drop 4).take 2)
                    ++ "-01").data = [a, b, c, d, '-', e, f, '-', '0', '1'] := by
                  simp [String.data_append]
                rw [hdata]
                exact isoShape_of_digits a b c d e f '0' '1'
                  (hmem a (by simp)) (hmem b (by simp)) (hmem c (by simp))
                  (hmem d (by simp)) (hmem e (by simp)) (hmem f (by simp))
                  (by decide) (by decide)
  · rcases hds : s.data.filter Char.isDigit with _ | ⟨a, l⟩
    · rw [hds] at h4; simp at h4
    · rcases l with _ | ⟨b, l⟩
      · rw [hds] at h4; simp at h4
      · rcases l with _ | ⟨c, l⟩
        · rw [hds] at h4; simp at h4
        · rcases l with _ | ⟨d, l⟩
          · rw [hds] at h4; simp at h4
          · have hmem : ∀ x ∈ a :: b :: c :: d :: l, Char.isDigit x := by
              rw [← hds]; exact hdig
            have hdata : (String.mk ((a :: b :: c :: d :: l).take 4) ++
                "-01-01").data = [a, b, c, d, '-', '0', '1', '-', '0', '1'] := by
              simp [String.data_append]
            rw [hdata]
            exact isoShape_of_digits a b c d '0' '1' '0' '1'
              (hmem a (by simp)) (hmem b (by simp)) (hmem c (by simp))
              (hmem d (by simp)) (by decide) (by decide) (by decide) (by decide)
  · obtain ⟨hlen, hdigy⟩ := hy
    rcases hys : (toString year).data with _ | ⟨a, l⟩
    · rw [hys] at hlen; simp at hlen
    · rcases l with _ | ⟨b, l⟩
      · rw [hys] at hlen; simp at hlen
      · rcases l with _ | ⟨c, l⟩
        · rw [hys] at hlen; simp at hlen
        · rcases l with _ | ⟨d, l⟩
          · rw [hys] at hlen; simp at hlen
          · rcases l with _ | ⟨e, l⟩
            · have hmem : ∀ x ∈ a :: b :: c :: d :: ([] : List Char),
                  x.isDigit = true := by rw [← hys]; exact hdigy
              have hdata : (toString year ++ "-01-01").data =
                  [a, b, c, d, '-', '0', '1', '-', '0', '1'] := by
                rw [String.data_append, hys]
                rfl
              rw [hdata]
              exact isoShape_of_digits a b c d '0' '1' '0' '1'
                (hmem a (by simp)) (hmem b (by simp)) (hmem c (by simp))
                (hmem d (by simp)) (by decide) (by decide) (by decide) (by decide)
            · rw [hys] at hlen; simp at hlen

/-- Witness for C6: the shape statement applied at a concrete year and a
digit-free input. -/
theorem C6_format_date_witness :
    validYearStr 2026 ∧ isIsoShape (format_date 2026 "hello world") = true :=
  ⟨by decide, C6_format_date_total_and_iso.1 2026 "hello world" (by decide)⟩

/-! ## C2 -/

theorem scoreTermsFold_eq (ft : String) (w : ℚ) (terms : List String) (acc : ℚ) :
    scoreTermsFold ft w terms acc =
      acc + w * (terms.map (fun t => (pyCount ft t : ℚ))).sum := by
  induction terms generalizing acc with
  | nil => simp [scoreTermsFold]
  | cons t ts ih =>
    have hstep : scoreTermsFold ft w (t :: ts) acc =
        scoreTermsFold ft w ts
          (if 0 < pyCount ft t then acc + (pyCount ft t : ℚ) * w else acc) := rfl
    rw [hstep, ih]
    by_cases h : 0 < pyCount ft t
    · rw [if_pos h]
      simp only [List.map_cons, List.sum_cons]
      ring
    · have h0 : pyCount ft t = 0 := by omega
      rw [if_neg h]
      simp only [List.map_cons, List.sum_cons, h0]
      push_cast
      ring

theorem scoreField_eq (f : String) (w : ℚ) (terms : List String) (acc : ℚ)
    (hts : ∀ t ∈ terms, t ≠ "") :
    (if pyLower f ≠ "" then scoreTermsFold (pyLower f) w terms acc else acc) =
      acc + w * termFreqSum f terms := by
  by_cases h : pyLower f ≠ ""
  · rw [if_pos h, scoreTermsFold_eq]
    rfl
  · rw [if_neg h]
    push_neg at h
    have hz : termFreqSum f terms = 0 := by
      unfold termFreqSum
      apply List.sum_eq_zero
      intro x hx
      rcases List.mem_map.mp hx with ⟨t, ht, rfl⟩
      rw [h, pyCount_empty_text (hts t ht)]
      norm_num
    rw [hz]
    ring

theorem scoreFieldsFold_eq (terms : List String) (hts : ∀ t ∈ terms, t ≠ "")
    (fields : List (String × ℚ)) (acc : ℚ) :
    scoreFieldsFold terms fields acc =
      acc + (fields.map (fun fw => fw.2 * termFreqSum fw.1 terms)).sum := by
  induction fields generalizing acc with
  | nil => simp [scoreFieldsFold]
  | cons fw rest ih =>
    obtain ⟨f, w⟩ := fw
    have hstep : scoreFieldsFold terms ((f, w) :: rest) acc =
        scoreFieldsFold terms rest
          (if pyLower f ≠ "" then scoreTermsFold (pyLower f) w terms acc else acc) :=
      rfl
    rw [hstep, ih, scoreField_eq f w terms acc hts]
    simp only [List.map_cons, List.sum_cons]
    ring

theorem custom_score_eq_specScore (p : Patent) (q : String) :
    calculate_custom_score p q = specScore p q := by
  have hts : ∀ t ∈ pySplitWs (pyLower q), t ≠ "" :=
    fun t ht => mem_pySplitWs_ne_empty ht
  simp only [calculate_custom_score, specScore]
  rw [scoreFieldsFold_eq _ hts]
  simp only [List.map_cons, List.map_nil, List.sum_cons, List.sum_nil]
  by_cases hb : boostedCategory p.category
  · rw [if_pos hb, if_pos hb]
    ring
  · rw [if_neg hb, if_neg hb]
    ring

/-- C2: for every record and query, the custom score equals the weighted
sum, over the fields title/abstract/claims/description with weights
3.0/2.0/1.5/1.0, of the occurrence counts of each lower-cased query term
in the lower-cased field text, multiplied by 1.2 = 6/5 exactly when the
category is privileged; and the two concrete spec instances: for query
"network", 3 title occurrences score 9 and 1 abstract occurrence scores
2 (both records un-boosted). -/
theorem C2_custom_score_formula :
    (∀ p q, calculate_custom_score p q = specScore p q) ∧
    calculate_custom_score c2TitleRecord "network" = 9 ∧
    calculate_custom_score c2AbstractRecord "network" = 2 := by
  refine ⟨custom_score_eq_specScore, ?_, ?_⟩
  · rw [custom_score_eq_specScore]
    simp only [specScore]
    rw [show pySplitWs (pyLower "network") = ["network"] from by decide]
    rw [if_neg (by decide : ¬ boostedCategory c2TitleRecord.category)]
    simp only [termFreqSum, List.map_cons, List.map_nil, List.sum_cons, List.sum_nil]
    rw [show pyCount (pyLower c2TitleRecord.title) "network" = 3 from by decide,
      show pyCount (pyLower c2TitleRecord.abstract) "network" = 0 from by decide,
      show pyCount (pyLower c2TitleRecord.claims) "network" = 0 from by decide,
      show pyCount (pyLower c2TitleRecord.description) "network" = 0 from by decide]
    norm_num
  · rw [custom_score_eq_specScore]
    simp only [specScore]
    rw [show pySplitWs (pyLower "network") = ["network"] from by decide]
    rw [if_neg (by decide : ¬ boostedCategory c2AbstractRecord.category)]
    simp only [termFreqSum, List.map_cons, List.map_nil, List.sum_cons, List.sum_nil]
    rw [show pyCount (pyLower c2AbstractRecord.title) "network" = 0 from by decide,
      show pyCount (pyLower c2AbstractRecord.abstract) "network" = 1 from by decide,
      show pyCount (pyLower c2AbstractRecord.claims) "network" = 0 from by decide,
      show pyCount (pyLower c2AbstractRecord.description) "network" = 0 from by decide]
    norm_num

/-! ## C7 -/

theorem extract_some_bounds {fb : Element → String} {year : Nat} {e : Element}
    {r : Patent} (h : extract_patent_data_robust fb year e = some r) :
    r.title = titleOf e ∧ r.abstract = abstractOf e ∧
    5 ≤ r.title.length ∧ 10 ≤ r.abstract.length := by
  simp only [extract_patent_data_robust] at h
  by_cases hc : (titleOf e).length < 5 ∨ (abstractOf e).length < 10
  · rw [if_pos hc] at h
    exact absurd h (by simp)
  · rw [if_neg hc] at h
    push_neg at hc
    injection h with h
    subst h
    exact ⟨rfl, rfl, hc.1, hc.2⟩

/-- C7: extraction returns `none` (raising nothing - the embedding is a
total function) exactly when the normalized title is shorter than 5 or
the normalized abstract shorter than 10 characters, and every record
that `extract_from_root` passes on to storage/indexing meets both
thresholds. -/
theorem C7_validation_thresholds :
    (∀ fb year e, extract_patent_data_robust fb year e = none ↔
        (titleOf e).length < 5 ∨ (abstractOf e).length < 10) ∧
    (∀ fb year root,
        List.Forall (fun p : Patent => 5 ≤ p.title.length ∧ 10 ≤ p.abstract.length)
          (extract_from_root fb year root)) := by
  constructor
  · intro fb year e
    simp only [extract_patent_data_robust]
    by_cases hc : (titleOf e).length < 5 ∨ (abstractOf e).length < 10
    · rw [if_pos hc]
      simp [hc]
    · rw [if_neg hc]
      simp [hc]
  · intro fb year root
    rw [List.forall_iff_forall_mem]
    intro p hp
    rcases List.mem_flatMap.mp hp with ⟨app, _, hin⟩
    rcases hext : extract_patent_data_robust fb year app with _ | r
    · rw [hext] at hin
      simp at hin
    · rw [hext] at hin
      dsimp only at hin
      by_cases hcond : r.title ≠ "" ∧ r.abstract ≠ ""
      · rw [if_pos hcond] at hin
        rcases List.mem_singleton.mp hin with rfl
        have hb := extract_some_bounds hext
        exact ⟨hb.2.2.1, hb.2.2.2⟩
      · rw [if_neg hcond] at hin
        simp at hin

/-! ## C10 -/

/-- C10: when no title path and no abstract path matches, extraction
substitutes the sentinels `"Untitled"` (length 8) and
`"No abstract available"` (length 21), which meet the validation
thresholds, so the candidate is accepted rather than rejected. -/
theorem C10_sentinels_accepted :
    ∀ (fb : Element → String) (year : Nat) (e : Element),
      find_element_flexible e titlePaths = none →
      find_element_flexible e abstractPaths = none →
      ∃ r, extract_patent_data_robust fb year e = some r ∧
        r.title = "Untitled" ∧ r.abstract = "No abstract available" ∧
        r.title.length = 8 ∧ r.abstract.length = 21 := by
  intro fb year e ht ha
  have htitle : titleOf e = "Untitled" := by simp [titleOf, ht]
  have habs : abstractOf e = "No abstract available" := by simp [abstractOf, ha]
  simp only [extract_patent_data_robust, htitle, habs]
  rw [if_neg (by decide : ¬ (("Untitled" : String).length < 5 ∨
    ("No abstract available" : String).length < 10))]
  refine ⟨_, rfl, rfl, rfl, rfl, rfl⟩

/-- Witness for C10: the sentinel acceptance at a concrete document with
no title and no abstract elements. -/
theorem C10_sentinels_witness :
    find_element_flexible c10Elem titlePaths = none ∧
    find_element_flexible c10Elem abstractPaths = none ∧
    ∃ r, extract_patent_data_robust fbTest 2025 c10Elem = some r ∧
      r.title = "Untitled" ∧ r.abstract = "No abstract available" ∧
      r.title.length = 8 ∧ r.abstract.length = 21 :=
  ⟨rfl, rfl, C10_sentinels_accepted fbTest 2025 c10Elem rfl rfl⟩

/-! ## C8 -/

theorem insertDesc_perm (x : Patent × ℚ) (m : List (Patent × ℚ)) :
    List.Perm (insertDesc x m) (x :: m) := by
  induction m with
  | nil => exact List.Perm.refl _
  | cons y ys ih =>
    show List.Perm (if x.2 < y.2 then y :: insertDesc x ys else x :: y :: ys)
      (x :: y :: ys)
    by_cases h : x.2 < y.2
    · rw [if_pos h]
      exact (ih.cons y).trans (List.Perm.swap x y ys)
    · rw [if_neg h]

theorem insertDesc_pairwise (x : Patent × ℚ) (m : List (Patent × ℚ))
    (hm : List.Pairwise (fun a b => b.2 ≤ a.2) m) :
    List.Pairwise (fun a b => b.2 ≤ a.2) (insertDesc x m) := by
  induction m with
  | nil => simp [insertDesc]
  | cons y ys ih =>
    rcases List.pairwise_cons.mp hm with ⟨hy, hys⟩
    show List.Pairwise _ (if x.2 < y.2 then y :: insertDesc x ys else x :: y :: ys)
    by_cases h : x.2 < y.2
    · rw [if_pos h]
      refine List.pairwise_cons.mpr ⟨?_, ih hys⟩
      intro b hb
      rcases List.mem_cons.mp ((insertDesc_perm x ys).subset hb) with rfl | hb'
      · exact le_of_lt h
      · exact hy b hb'
    · rw [if_neg h]
      have hxy : y.2 ≤ x.2 := le_of_not_lt h
      refine List.pairwise_cons.mpr ⟨?_, hm⟩
      intro b hb
      rcases List.mem_cons.mp hb with rfl | hb'
      · exact hxy
      · exact le_trans (hy b hb') hxy

theorem sortDescByScore_perm (l : List (Patent × ℚ)) :
    List.Perm (sortDescByScore l) l := by
  induction l with
  | nil => exact List.Perm.refl _
  | cons x xs ih =>
    show List.Perm (insertDesc x (sortDescByScore xs)) (x :: xs)
    exact (insertDesc_perm x _).trans (ih.cons x)

theorem sortDescByScore_pairwise (l : List (Patent × ℚ)) :
    List.Pairwise (fun a b => b.2 ≤ a.2) (sortDescByScore l) := by
  induction l with
  | nil => simp [sortDescByScore]
  | cons x xs ih => exact insertDesc_pairwise x _ ih

theorem insertDesc_filter_score (x : Patent × ℚ) (m : List (Patent × ℚ)) (v : ℚ) :
    (insertDesc x m).filter (fun y => decide (y.2 = v)) =
      (x :: m).filter (fun y => decide (y.2 = v)) := by
  induction m with
  | nil => rfl
  | cons y ys ih =>
    show ((if x.2 < y.2 then y :: insertDesc x ys else x :: y :: ys).filter
      (fun y => decide (y.2 = v))) = _
    by_cases h : x.2 < y.2
    · rw [if_pos h]
      by_cases hx : x.2 = v
      · have hyv : ¬ y.2 = v := fun hyv => absurd h (by rw [hx, hyv]; exact lt_irrefl v)
        simp [List.filter_cons, hx, hyv, ih]
      · simp [List.filter_cons, hx, ih]
    · rw [if_neg h]

theorem sortDescByScore_filter_score (l : List (Patent × ℚ)) (v : ℚ) :
    (sortDescByScore l).filter (fun y => decide (y.2 = v)) =
      l.filter (fun y => decide (y.2 = v)) := by
  induction l with
  | nil => rfl
  | cons x xs ih =>
    show (insertDesc x (sortDescByScore xs)).filter _ = _
    rw [insertDesc_filter_score]
    simp only [List.filter_cons, ih]

theorem filter_comm_map_score (q : String) (v : ℚ) (cand : List Patent) :
    ((cand.map (fun p => (p, calculate_custom_score p q))).filter
        (fun y => decide (y.2 = v))) =
      (cand.filter (fun p => decide (calculate_custom_score p q = v))).map
        (fun p => (p, calculate_custom_score p q)) := by
  induction cand with
  | nil => rfl
  | cons p ps ih =>
    by_cases h : calculate_custom_score p q = v
    · simp [List.filter_cons, h, ih]
    · simp [List.filter_cons, h, ih]

/-- C8: for every query, limit, filter set and index rank order, `search`
returns at most `limit` results (the `LIMIT` cap is applied to the
candidate retrieval before re-ranking, and the result is a permutation
of exactly those capped candidates, so no candidate - in particular none
scoring zero - is excluded); the output is sorted in non-increasing
order of the custom score, each result carries its record's custom
score, and within every equal-score class the retrieval order is
preserved (stable sort). -/
theorem C8_search_cap_sort_stability :
    ∀ (rk : Patent → ℚ) (s : DBState) (q : String) (limit : Nat)
      (cat asg : Option String) (dr : Option (String × String)),
      (search rk s q limit cat asg dr).length ≤ limit ∧
      List.Pairwise (fun a b => b.2 ≤ a.2) (search rk s q limit cat asg dr) ∧
      List.Perm ((search rk s q limit cat asg dr).map Prod.fst)
        (sqlOrderedCandidates rk s q cat asg dr limit) ∧
      List.Forall (fun x => x.2 = calculate_custom_score x.1 q)
        (search rk s q limit cat asg dr) ∧
      (∀ v : ℚ,
        ((search rk s q limit cat asg dr).filter
            (fun y => decide (y.2 = v))).map Prod.fst =
          (sqlOrderedCandidates rk s q cat asg dr limit).filter
            (fun p => decide (calculate_custom_score p q = v))) := by
  intro rk s q limit cat asg dr
  have hperm : List.Perm (search rk s q limit cat asg dr)
      ((sqlOrderedCandidates rk s q cat asg dr limit).map
        (fun p => (p, calculate_custom_score p q))) :=
    sortDescByScore_perm _
  have hcandlen : (sqlOrderedCandidates rk s q cat asg dr limit).length ≤ limit := by
    unfold sqlOrderedCandidates
    exact List.length_take_le _ _
  refine ⟨?_, sortDescByScore_pairwise _, ?_, ?_, ?_⟩
  · rw [hperm.length_eq, List.length_map]
    exact hcandlen
  · have hmap := hperm.map Prod.fst
    rw [List.map_map,
      show (Prod.fst ∘ fun p : Patent => (p, calculate_custom_score p q)) = id from rfl,
      List.map_id] at hmap
    exact hmap
  · rw [List.forall_iff_forall_mem]
    intro x hx
    rcases List.mem_map.mp (hperm.subset hx) with ⟨p, _, rfl⟩
    rfl
  · intro v
    show ((sortDescByScore _).filter _).map Prod.fst = _
    rw [sortDescByScore_filter_score, filter_comm_map_score, List.map_map,
      show (Prod.fst ∘ fun p : Patent => (p, calculate_custom_score p q)) = id from rfl,
      List.map_id]

/-! ## C3 -/

theorem stripLit_append (lit rest : List Char) :
    stripLit lit (lit ++ rest) = some rest := by
  unfold stripLit
  rw [if_pos ( List.isPrefixOf_iff_prefix.mpr (List.prefix_append lit rest)),
    List.drop_left]

theorem scanQGt_append (a : List Char) (rest : List Char)
    (ha : ∀ c ∈ a, c ≠ '>') :
    scanQGt (a ++ '?' :: '>' :: rest) = some rest := by
  induction a with
  | nil => rfl
  | cons c a' ih =>
    have hc : c ≠ '>' := ha c (by simp)
    have ha' : ∀ x ∈ a', x ≠ '>' := fun x hx => ha x (List.mem_cons_of_mem c hx)
    cases a' with
    | nil =>
      by_cases hq : c = '?'
      · subst hq; rfl
      · show scanQGt (c :: '?' :: '>' :: rest) = some rest
        simp only [scanQGt, if_neg hq, if_neg hc]
        rfl
    | cons d a'' =>
      have hd : d ≠ '>' := ha' d (by simp)
      show scanQGt (c :: d :: (a'' ++ '?' :: '>' :: rest)) = some rest
      by_cases hq : c = '?'
      · subst hq
        simp only [scanQGt, if_pos rfl, if_neg hd]
        exact ih ha'
      · simp only [scanQGt, if_neg hq, if_neg hc]
        exact ih ha'

theorem scanGt_append (a : List Char) (rest : List Char)
    (ha : ∀ c ∈ a, c ≠ '>') :
    scanGt (a ++ '>' :: rest) = some rest := by
  induction a with
  | nil => rfl
  | cons c a' ih =>
    have hc : c ≠ '>' := ha c (by simp)
    show scanGt (c :: (a' ++ '>' :: rest)) = some rest
    simp only [scanGt, if_neg hc]
    exact ih (fun x hx => ha x (List.mem_cons_of_mem c hx))

theorem dropWs_doctype (t : List Char) :
    dropWsL ('\n' :: (doctypeLit ++ t)) = doctypeLit ++ t := rfl

theorem dropWs_openTag (t : List Char) :
    dropWsL ('\n' :: (openTagLit ++ t)) = openTagLit ++ t := rfl

theorem scanFirst_exact (pat : List Char) (hne : pat ≠ []) (body rest : List Char)
    (h : containsSub pat (body ++ pat.dropLast) = false) :
    scanFirst pat (body ++ (pat ++ rest)) = some rest := by
  induction body with
  | nil =>
    rcases pat with _ | ⟨p, ps⟩
    · exact absurd rfl hne
    · show scanFirst (p :: ps) ((p :: ps) ++ rest) = some rest
      have hpre : (p :: ps).isPrefixOf ((p :: ps) ++ rest) = true :=
        List.isPrefixOf_iff_prefix.mpr (List.prefix_append _ _)
      simp only [List.cons_append] at hpre ⊢
      simp only [scanFirst, hpre, if_pos]
      rw [← List.cons_append, List.drop_left]
  | cons b body' ih =>
    have hlast := List.dropLast_append_getLast hne
    have hhead : pat.isPrefixOf (b :: (body' ++ (pat ++ rest))) = false := by
      by_contra hlit
      rw [Bool.not_eq_false] at hlit
      rcases List.isPrefixOf_iff_prefix.mp hlit with ⟨t, ht⟩
      have hrearr : b :: (body' ++ (pat ++ rest)) =
          ((b :: body') ++ pat.dropLast) ++ ([pat.getLast hne] ++ rest) := by
        rw [← List.cons_append]
        conv_lhs => rw [← hlast]
        simp [List.append_assoc]
      have hlen : pat.length ≤ ((b :: body') ++ pat.dropLast).length := by
        rw [List.length_append, List.length_cons, List.length_dropLast]
        have : 1 ≤ pat.length := List.length_pos.mpr hne
        omega
      have h1 : pat = (b :: (body' ++ (pat ++ rest))).take pat.length := by
        rw [← ht, List.take_left]
      rw [hrearr, List.take_append_of_le_length hlen] at h1
      rcases List.take_prefix pat.length ((b :: body') ++ pat.dropLast) with ⟨t2, ht2⟩
      rw [← h1] at ht2
      have hsub : containsSub pat ((b :: body') ++ pat.dropLast) = true :=
        (containsSub_eq_true_iff pat _).mpr ⟨[], t2, by rw [List.nil_append]; exact ht2.symm⟩
      rw [hsub] at h
      exact Bool.noConfusion h
    rw [List.cons_append]
    simp only [scanFirst, hhead, Bool.false_eq_true, if_false]
    apply ih
    simp only [List.cons_append, containsSub, Bool.or_eq_false_iff] at h
    exact h.2

theorem matchDocAt_render (d : PatentDoc) (hd : ValidDoc d) (rest : List Char) :
    matchDocAt (renderL d ++ rest) = some rest := by
  obtain ⟨h1, h2, h3, h4⟩ := hd
  unfold matchDocAt renderL
  simp only [List.append_assoc, List.cons_append, List.nil_append]
  rw [stripLit_append]
  simp only [Option.some_bind]
  rw [scanQGt_append _ _ h1]
  simp only [Option.some_bind]
  rw [dropWs_doctype, stripLit_append]
  simp only [Option.some_bind]
  rw [scanGt_append _ _ h2]
  simp only [Option.some_bind]
  rw [dropWs_openTag, stripLit_append]
  simp only [Option.some_bind]
  rw [scanGt_append _ _ h3]
  simp only [Option.some_bind]
  exact scanFirst_exact closeTagLit (by decide) _ _ h4

theorem renderL_ne_nil (d : PatentDoc) : renderL d ≠ [] := by
  unfold renderL
  iterate 10 apply List.append_ne_nil_of_left_ne_nil
  decide

theorem regexFindAux_concat (ds : List PatentDoc) :
    ∀ (fuel : Nat), (∀ d ∈ ds, ValidDoc d) →
      ((ds.map renderL).foldr (· ++ ·) []).length ≤ fuel →
      regexFindAux fuel ((ds.map renderL).foldr (· ++ ·) []) = ds.map renderL := by
  induction ds with
  | nil =>
    intro fuel _ _
    cases fuel <;> rfl
  | cons d ds' ih =>
    intro fuel hv hfuel
    have hvd : ValidDoc d := hv d (by simp)
    have hinput : (((d :: ds').map renderL).foldr (· ++ ·) []) =
        renderL d ++ ((ds'.map renderL).foldr (· ++ ·) []) := rfl
    rw [hinput] at hfuel ⊢
    rcases hr : renderL d with _ | ⟨c, t⟩
    · exact absurd hr (renderL_ne_nil d)
    · have hlen1 : 1 ≤ (renderL d).length := by rw [hr]; simp
      rw [List.length_append] at hfuel
      cases fuel with
      | zero => omega
      | succ n =>
        rw [List.cons_append]
        have hm : matchDocAt
            (c :: (t ++ ((ds'.map renderL).foldr (· ++ ·) []))) =
            some ((ds'.map renderL).foldr (· ++ ·) []) := by
          rw [← List.cons_append, ← hr]
          exact matchDocAt_render d hvd _
        simp only [regexFindAux, hm]
        have htk : (c :: (t ++ ((ds'.map renderL).foldr (· ++ ·) []))).take
            ((c :: (t ++ ((ds'.map renderL).foldr (· ++ ·) []))).length -
              ((ds'.map renderL).foldr (· ++ ·) []).length) = renderL d := by
          rw [← List.cons_append, ← hr, List.length_append]
          have harith : (renderL d).length +
              ((ds'.map renderL).foldr (· ++ ·) []).length -
              ((ds'.map renderL).foldr (· ++ ·) []).length = (renderL d).length := by
            omega
          rw [harith, List.take_left]
        rw [htk, List.map_cons]
        congr 1
        exact ih n (fun x hx => hv x (List.mem_cons_of_mem d hx)) (by omega)

/-- C3: for every list of independently valid patent documents
concatenated back-to-back (each preceded by its XML declaration marker),
the splitter's declaration-anchored regex scan finds exactly the
documents, verbatim: the splitter returns one unit per input document
(each equal to that document, hence independently parsable), and the
depth-tracked line scan is not consulted (it only runs when the regex
scan yields zero matches, which for an empty document list correctly
yields zero units). -/
theorem C3_splitter_exact_count (ds : List PatentDoc)
    (hv : ∀ d ∈ ds, ValidDoc d) :
    splitDocuments (concatDocs ds) = ds.map renderDoc ∧
    (splitDocuments (concatDocs ds)).length = ds.length := by
  have hre : regexFindDocs (concatDocs ds).data = ds.map renderL := by
    have hdata : (concatDocs ds).data = ((ds.map renderL).foldr (· ++ ·) []) := rfl
    unfold regexFindDocs
    rw [hdata]
    exact regexFindAux_concat ds _ hv (le_refl _)
  have hmain : splitDocuments (concatDocs ds) = ds.map renderDoc := by
    simp only [splitDocuments]
    rw [hre]
    cases ds with
    | nil => rfl
    | cons d ds' =>
      simp [renderDoc, List.map_map, Function.comp]
  exact ⟨hmain, by rw [hmain, List.length_map]⟩

/-- Witness for C3: the splitter applied to two concrete concatenated
documents yields exactly two units. -/
theorem C3_splitter_witness :
    (∀ d ∈ c3Docs, ValidDoc d) ∧
    (splitDocuments (concatDocs c3Docs)).length = 2 := by
  have hv : ∀ d ∈ c3Docs, ValidDoc d := by decide
  refine ⟨hv, ?_⟩
  rw [(C3_splitter_exact_count c3Docs hv).2]
  rfl

end PatentSearch
